import Mathlib

/-!
Verification of the tree-completion and state-loading logic of
`src/starkware/committee/committee/load_trees_from_file/load_trees_from_file.py`.

The stateful Python code is shallowly embedded as explicit state passing over
an executable content-addressed fact store.  Python exceptions become an
explicit error type carried by `Except`; an error value also carries the
storage state reached at the moment of failure, so that frame properties
("nothing was written by the failed call") are statable.
-/

deriving instance DecidableEq for Except

namespace StarkexDAC

/-- A content hash ("root token").  The Python code handles these as `bytes`
values produced by the Pedersen hash; the model uses natural numbers. -/
abbrev Token := Nat

/-- A persisted fact: either an internal Merkle node fact recording the two
child tokens (`MerkleNodeFact(left_node=..., right_node=...)` in the source)
or a leaf fact holding an opaque serialized payload. -/
inductive Fact where
  | node (left_node right_node : Token)
  | leaf (payload : Nat)
  deriving DecidableEq

/-- Modelled from the spec (§2, §4.1): the hash function is an external
deterministic collision-resistant binary hash; the store key of a fact is the
hash of its content.  The model realises collision resistance as injectivity,
using the injective `Nat.pair` on the two child tokens. -/
def factHash : Fact → Token
  | Fact.node l r => 2 * Nat.pair l r
  | Fact.leaf p => 2 * p + 1

/-- The fact store: the set of facts written so far, content-addressed by
`factHash`.  Modelled as a list of stored fact values. -/
abbrev Store := List Fact

/-- Whether a fact with the given content hash exists in the store. -/
def containsFact (s : Store) (t : Token) : Bool :=
  s.any (fun f => factHash f == t)

/-- Modelled from the spec (§4.1): `write_node_fact` serializes a fact,
computes its content hash, stores it if absent (idempotent on duplicates)
and returns the hash.  The model returns the updated store; the returned
token is `factHash f`. -/
def writeFact (s : Store) (f : Fact) : Store :=
  if containsFact s (factHash f) then s else f :: s

/-- `MerkleTreeNode(root, height)` from the source: a token together with a
reported height. -/
structure MerkleTreeNode where
  root : Token
  height : Nat
  deriving DecidableEq

/-- The failures the loader can surface.  `validationError` stands for a
failed Python `assert` (the spec's ValidationError), `notFoundError` for a
fact missing from the store, and `valueError` for the `ValueError` that
`math.log` raises on a zero argument. -/
inductive Err where
  | validationError
  | notFoundError
  | valueError
  deriving DecidableEq

/-- `combine_nodes` from the source: assert the two heights are equal, write
the internal fact `MerkleNodeFact(left_node=left.root, right_node=right.root)`
and return the node made of its content token at height `left.height + 1`.
The assert fires before any write, so the error carries the store unchanged. -/
def combine_nodes (s : Store) (left right : MerkleTreeNode) :
    Except (Err × Store) (Store × MerkleTreeNode) :=
  if left.height = right.height then
    Except.ok (writeFact s (Fact.node left.root right.root),
      MerkleTreeNode.mk (factHash (Fact.node left.root right.root)) (left.height + 1))
  else
    Except.error (Err.validationError, s)

/-- Adjacent pairing: `zip(subtrees[::2], subtrees[1::2])` from the source,
the element at index `2i` on the left and the one at index `2i + 1` on the
right. -/
def pairUp {α : Type} : List α → List (α × α)
  | a :: b :: rest => (a, b) :: pairUp rest
  | _ => []

/-- One level of `asyncio.gather(combine_nodes ...)` over the paired layer.
The gathered writes are idempotent content-addressed writes (spec §5), so the
model threads the store left to right. -/
def combinePairs : Store → List (MerkleTreeNode × MerkleTreeNode) →
    Except (Err × Store) (Store × List MerkleTreeNode)
  | s, [] => Except.ok (s, [])
  | s, (l, r) :: rest =>
    match combine_nodes s l r with
    | Except.error e => Except.error e
    | Except.ok (s1, nd) =>
      match combinePairs s1 rest with
      | Except.error e => Except.error e
      | Except.ok (s2, nds) => Except.ok (s2, nd :: nds)

/-- One iteration of the `for _ in range(height)` loop in `complete_tree`:
assert the layer has even length, then combine adjacent pairs. -/
def completeOneRound (s : Store) (layer : List MerkleTreeNode) :
    Except (Err × Store) (Store × List MerkleTreeNode) :=
  if layer.length % 2 = 0 then combinePairs s (pairUp layer)
  else Except.error (Err.validationError, s)

/-- The `for _ in range(height)` loop of `complete_tree`: iterate
`completeOneRound` the given number of times. -/
def completeRounds : Store → List MerkleTreeNode → Nat →
    Except (Err × Store) (Store × List MerkleTreeNode)
  | s, layer, 0 => Except.ok (s, layer)
  | s, layer, k + 1 =>
    match completeOneRound s layer with
    | Except.error e => Except.error e
    | Except.ok (s1, layer1) => completeRounds s1 layer1 k

/-- Modelled from the spec (§4.3): the `tree.get_children(ffc)` probe fetches
each listed token's fact from the store; a token with no stored fact surfaces
a NotFoundError.  The probe only reads, so the error carries the store
unchanged. -/
def probeAll : Store → List MerkleTreeNode → Except (Err × Store) Unit
  | _, [] => Except.ok ()
  | s, nd :: rest =>
    if containsFact s nd.root then probeAll s rest
    else Except.error (Err.notFoundError, s)

/-- Fuel-driven floor of the base-2 logarithm, the executable counterpart of
`int(math.log(n_nodes, 2))` on positive arguments. -/
def log2fuel : Nat → Nat → Nat
  | 0, _ => 0
  | fuel + 1, n => if n < 2 then 0 else log2fuel fuel (n / 2) + 1

/-- Floor of the base-2 logarithm for positive `n`. -/
def floorLog2 (n : Nat) : Nat := log2fuel n n

/-- `complete_tree` from the source.  `math.log(0, 2)` raises ValueError, so
the empty layer fails before the power-of-two assert; otherwise the length
must equal `2 ^ floor(log2 length)`, every listed token is probed in the
store (note the nodes are built with the placeholder height 0), `height`
combination rounds run, and the single remaining node's root is returned. -/
def complete_tree (s : Store) (nodes : List Token) :
    Except (Err × Store) (Store × Token) :=
  if nodes.length = 0 then Except.error (Err.valueError, s)
  else if 2 ^ floorLog2 nodes.length = nodes.length then
    match probeAll s (nodes.map (fun t => MerkleTreeNode.mk t 0)) with
    | Except.error e => Except.error e
    | Except.ok _ =>
      match completeRounds s (nodes.map (fun t => MerkleTreeNode.mk t 0))
          (floorLog2 nodes.length) with
      | Except.error e => Except.error e
      | Except.ok (s1, [nd]) => Except.ok (s1, nd.root)
      | Except.ok (s1, _) => Except.error (Err.validationError, s1)
  else Except.error (Err.validationError, s)

/-- Spec-side pairwise combination: the content token of the internal fact
recording the two operand tokens in left/right order. -/
def combineSpec (l r : Token) : Token := factHash (Fact.node l r)

/-- Spec-side single round: pair up adjacent tokens (index `2i` left,
`2i + 1` right) and combine each pair. -/
def roundSpec (layer : List Token) : List Token :=
  (pairUp layer).map (fun p => combineSpec p.1 p.2)

/-- Spec-side completion: `k` rounds of adjacent pairwise combination. -/
def completeSpec : Nat → List Token → List Token
  | 0, layer => layer
  | k + 1, layer => completeSpec k (roundSpec layer)

/-- The slice of `dump_info.batch_info` that `load_info` reads and persists:
the claimed order root (`batch_info.merkle_roots["order"]`) plus the rest of
the serialized record, opaque to the loader. -/
structure BatchInfo where
  order_root : Token
  payload : Nat
  deriving DecidableEq

/-- The slice of `DumpInfo` that `load_info` consumes: the batch id, the
order-subtree root tokens (already hex-decoded to tokens in the model) and
the batch-info record. -/
structure DumpInfo where
  batch_id : Nat
  order_subtree_roots : List Token
  batch_info : BatchInfo
  deriving DecidableEq

/-- The committee key/value storage touched by `load_info`: the records
stored under `Committee.committee_batch_info_key(batch_id)` and the integer
under `Committee.next_batch_id_key()`. -/
structure CommitteeKV where
  batch_info_records : List (Nat × BatchInfo)
  next_batch_id : Option Nat
  deriving DecidableEq

/-- `storage.set_value(committee_batch_info_key(id), bi.serialize())`. -/
def kvSetBatchInfo (kv : CommitteeKV) (id : Nat) (bi : BatchInfo) : CommitteeKV :=
  CommitteeKV.mk ((id, bi) :: kv.batch_info_records) kv.next_batch_id

/-- `storage.set_int(next_batch_id_key(), n)`. -/
def kvSetNextBatchId (kv : CommitteeKV) (n : Nat) : CommitteeKV :=
  CommitteeKV.mk kv.batch_info_records (some n)

/-- Lookup of the batch-info record stored under a batch id. -/
def kvGetBatchInfo (kv : CommitteeKV) (id : Nat) : Option BatchInfo :=
  (kv.batch_info_records.find? (fun p => p.1 == id)).map Prod.snd

/-- `MainHandler.load_info` from the source, after parsing: complete the tree
over the dumped order-subtree roots, assert the computed root equals the
claimed `batch_info.merkle_roots["order"]`, persist the batch-info record
under the batch id, and, only when `--set_next_batch_id` was given, set the
next-batch-id counter to `batch_id + 1`.  Failures carry the fact store and
committee storage as they stood when the exception was raised. -/
def load_info (s : Store) (kv : CommitteeKV) (di : DumpInfo)
    (set_next_batch_id : Bool) :
    Except (Err × Store × CommitteeKV) (Store × CommitteeKV) :=
  match complete_tree s di.order_subtree_roots with
  | Except.error (e, s1) => Except.error (e, s1, kv)
  | Except.ok (s1, root) =>
    if root = di.batch_info.order_root then
      if set_next_batch_id then
        Except.ok (s1,
          kvSetNextBatchId (kvSetBatchInfo kv di.batch_id di.batch_info)
            (di.batch_id + 1))
      else
        Except.ok (s1, kvSetBatchInfo kv di.batch_id di.batch_info)
    else Except.error (Err.validationError, s1, kv)

/-- Vault leaf state from the source: `VaultState(stark_key, token, balance)`.
Python integers are modelled as `Int`. -/
structure VaultState where
  stark_key : Int
  token : Int
  balance : Int
  deriving DecidableEq

/-- Order leaf state from the source: `OrderState(fulfilled_amount)`. -/
structure OrderState where
  fulfilled_amount : Int
  deriving DecidableEq

/-- The vault state built from one CSV row `(vault_id, stark_key, token,
balance)`. -/
def vaultStateOfRow (row : Int × Int × Int × Int) : VaultState :=
  VaultState.mk row.2.1 row.2.2.1 row.2.2.2

/-- The order state built from one CSV row `(order_id, fulfilled_amount)`. -/
def orderStateOfRow (row : Int × Int) : OrderState :=
  OrderState.mk row.2

/-- The modification map built by the CSV loop of `update_vaults`:
`vaults[vault_id] = VaultState(...)` row by row over a Python dict, so a
later row with the same id overwrites an earlier one. -/
def update_vaults_map (rows : List (Int × Int × Int × Int)) :
    Int → Option VaultState :=
  rows.foldl
    (fun d row => fun i => if i = row.1 then some (vaultStateOfRow row) else d i)
    (fun _ => none)

/-- The modification map built by the CSV loop of `update_orders`:
`orders[order_id] = OrderState(...)` row by row over a Python dict. -/
def update_orders_map (rows : List (Int × Int)) : Int → Option OrderState :=
  rows.foldl
    (fun d row => fun i => if i = row.1 then some (orderStateOfRow row) else d i)
    (fun _ => none)

example : completeSpec 2 [1, 3, 5, 7] =
    [combineSpec (combineSpec 1 3) (combineSpec 5 7)] := by decide

/-- Pairing an even-or-odd layer always yields half as many pairs,
rounded down. -/
theorem pairUp_length {α : Type} : ∀ l : List α, (pairUp l).length = l.length / 2
  | [] => by simp [pairUp]
  | [_] => by simp [pairUp]
  | _ :: _ :: rest => by
    simp only [pairUp, List.length_cons, pairUp_length rest]
    omega

/-- Pairing commutes with mapping a function over the layer. -/
theorem pairUp_map {α β : Type} (f : α → β) :
    ∀ l : List α, pairUp (l.map f) = (pairUp l).map (fun p => (f p.1, f p.2))
  | [] => rfl
  | [_] => rfl
  | _ :: _ :: rest => by
    simp only [List.map_cons, pairUp, List.map_cons, pairUp_map f rest]

/-- Both components of every produced pair come from the layer. -/
theorem pairUp_mem {α : Type} : ∀ (l : List α) (p : α × α),
    p ∈ pairUp l → p.1 ∈ l ∧ p.2 ∈ l
  | [], p, hp => by simp [pairUp] at hp
  | [_], p, hp => by simp [pairUp] at hp
  | a :: b :: rest, p, hp => by
    rcases List.mem_cons.mp hp with h | h
    · subst h
      exact ⟨List.mem_cons_self _ _, List.mem_cons_of_mem _ (List.mem_cons_self _ _)⟩
    · have hind := pairUp_mem rest p h
      exact ⟨List.mem_cons_of_mem _ (List.mem_cons_of_mem _ hind.1),
        List.mem_cons_of_mem _ (List.mem_cons_of_mem _ hind.2)⟩

/-- With enough fuel, the fuel-driven logarithm is exact on powers of two. -/
theorem log2fuel_pow : ∀ (fuel k : Nat), 2 ^ k ≤ fuel → log2fuel fuel (2 ^ k) = k
  | 0, k, h => by
    have hp : 0 < 2 ^ k := pow_pos (by omega) k
    omega
  | fuel + 1, 0, _ => by simp [log2fuel]
  | fuel + 1, k + 1, h => by
    have hp : 0 < 2 ^ k := pow_pos (by omega) k
    have hs : (2:Nat) ^ (k + 1) = 2 ^ k * 2 := pow_succ 2 k
    have h2 : ¬ (2 ^ (k + 1) < 2) := by omega
    have hdiv : 2 ^ (k + 1) / 2 = 2 ^ k := by omega
    have hle : 2 ^ k ≤ fuel := by omega
    simp only [log2fuel, if_neg h2, hdiv, log2fuel_pow fuel k hle]

/-- `floorLog2` inverts powers of two. -/
theorem floorLog2_pow (k : Nat) : floorLog2 (2 ^ k) = k :=
  log2fuel_pow (2 ^ k) k le_rfl

/-- When every listed token has a stored fact, the probe pass succeeds. -/
theorem probeAll_ok : ∀ (s : Store) (l : List MerkleTreeNode),
    (∀ nd ∈ l, containsFact s nd.root = true) → probeAll s l = Except.ok ()
  | _, [], _ => rfl
  | s, nd :: rest, h => by
    have hc := h nd (List.mem_cons_self _ _)
    simp only [probeAll, hc, if_true]
    exact probeAll_ok s rest (fun x hx => h x (List.mem_cons_of_mem _ hx))

/-- When some listed token has no stored fact, the probe pass fails with
NotFoundError, leaving the store unchanged. -/
theorem probeAll_err : ∀ (s : Store) (l : List MerkleTreeNode) (nd : MerkleTreeNode),
    nd ∈ l → containsFact s nd.root = false →
    probeAll s l = Except.error (Err.notFoundError, s)
  | s, x :: rest, nd, hmem, hmiss => by
    rcases List.mem_cons.mp hmem with h | h
    · subst h
      simp [probeAll, hmiss]
    · cases hx : containsFact s x.root with
      | true =>
        simp only [probeAll, hx, if_true]
        exact probeAll_err s rest nd h hmiss
      | false => simp [probeAll, hx]

/-- The probe pass either succeeds or fails with NotFoundError on the
unchanged store. -/
theorem probeAll_cases : ∀ (s : Store) (l : List MerkleTreeNode),
    probeAll s l = Except.ok () ∨ probeAll s l = Except.error (Err.notFoundError, s)
  | _, [] => Or.inl rfl
  | s, nd :: rest => by
    cases hx : containsFact s nd.root with
    | true => simpa [probeAll, hx] using probeAll_cases s rest
    | false => simp [probeAll, hx]

/-- Combining a list of pairs of equal-height nodes succeeds and produces,
in order, the spec-side combination of each pair at one more height. -/
theorem combinePairs_ok (h : Nat) :
    ∀ (s : Store) (ps : List (MerkleTreeNode × MerkleTreeNode)),
    (∀ p ∈ ps, p.1.height = h ∧ p.2.height = h) →
    ∃ s', combinePairs s ps = Except.ok
      (s', ps.map (fun p => MerkleTreeNode.mk (combineSpec p.1.root p.2.root) (h + 1)))
  | s, [], _ => ⟨s, rfl⟩
  | s, (l, r) :: rest, hh => by
    obtain ⟨hl, hr⟩ := hh (l, r) (List.mem_cons_self _ _)
    simp only at hl hr
    obtain ⟨s', hrec⟩ := combinePairs_ok h (writeFact s (Fact.node l.root r.root)) rest
      (fun p hp => hh p (List.mem_cons_of_mem _ hp))
    refine ⟨s', ?_⟩
    simp [combinePairs, combine_nodes, hl, hr, hrec, combineSpec]

/-- Running `i ≤ k` rounds over a layer of `2 ^ k` equal-height nodes
succeeds, leaves `2 ^ (k - i)` nodes whose heights grew by `i`, and produces
exactly the spec-side `i`-round combination of the root tokens. -/
theorem completeRounds_spec : ∀ (i k : Nat), i ≤ k →
    ∀ (s : Store) (layer : List MerkleTreeNode) (h : Nat),
    layer.length = 2 ^ k → (∀ nd ∈ layer, nd.height = h) →
    ∃ s' layer', completeRounds s layer i = Except.ok (s', layer') ∧
      layer'.length = 2 ^ (k - i) ∧
      (∀ nd ∈ layer', nd.height = h + i) ∧
      layer'.map MerkleTreeNode.root = completeSpec i (layer.map MerkleTreeNode.root)
  | 0, k, _, s, layer, h, hlen, hh =>
    ⟨s, layer, rfl, by simpa using hlen, by simpa using hh, rfl⟩
  | i + 1, k, hik, s, layer, h, hlen, hh => by
    obtain ⟨k', rfl⟩ : ∃ k', k = k' + 1 := ⟨k - 1, by omega⟩
    have hs : (2:Nat) ^ (k' + 1) = 2 ^ k' * 2 := pow_succ 2 k'
    have hev : layer.length % 2 = 0 := by omega
    have hone : completeOneRound s layer = combinePairs s (pairUp layer) := by
      simp [completeOneRound, hev]
    have hph : ∀ p ∈ pairUp layer, p.1.height = h ∧ p.2.height = h :=
      fun p hp => ⟨hh p.1 (pairUp_mem layer p hp).1, hh p.2 (pairUp_mem layer p hp).2⟩
    obtain ⟨s1, hcp⟩ := combinePairs_ok h s (pairUp layer) hph
    have hlen1 :
        ((pairUp layer).map
          (fun p => MerkleTreeNode.mk (combineSpec p.1.root p.2.root) (h + 1))).length
          = 2 ^ k' := by
      rw [List.length_map, pairUp_length]
      omega
    have hh1 : ∀ nd ∈ (pairUp layer).map
        (fun p => MerkleTreeNode.mk (combineSpec p.1.root p.2.root) (h + 1)),
        nd.height = h + 1 := by
      intro nd hnd
      obtain ⟨p, _, rfl⟩ := List.mem_map.mp hnd
      rfl
    obtain ⟨s', layer', hrec, hlen', hh', hroots'⟩ :=
      completeRounds_spec i k' (by omega) s1
        ((pairUp layer).map
          (fun p => MerkleTreeNode.mk (combineSpec p.1.root p.2.root) (h + 1)))
        (h + 1) hlen1 hh1
    refine ⟨s', layer', ?_, ?_, ?_, ?_⟩
    · simp only [completeRounds, hone, hcp]
      exact hrec
    · have hk : k' + 1 - (i + 1) = k' - i := by omega
      rw [hk]
      exact hlen'
    · intro nd hnd
      have := hh' nd hnd
      omega
    · rw [hroots']
      have hr1 : ((pairUp layer).map
          (fun p => MerkleTreeNode.mk (combineSpec p.1.root p.2.root) (h + 1))).map
            MerkleTreeNode.root
          = roundSpec (layer.map MerkleTreeNode.root) := by
        simp [roundSpec, pairUp_map, List.map_map]
      rw [hr1]
      rfl

/-- On a layer of `2 ^ k` tokens, `complete_tree` passes the length check and
reduces to the probe pass followed by `k` combination rounds. -/
theorem complete_tree_pow (s : Store) (k : Nat) (nodes : List Token)
    (hlen : nodes.length = 2 ^ k) :
    complete_tree s nodes =
      match probeAll s (nodes.map (fun t => MerkleTreeNode.mk t 0)) with
      | Except.error e => Except.error e
      | Except.ok _ =>
        match completeRounds s (nodes.map (fun t => MerkleTreeNode.mk t 0)) k with
        | Except.error e => Except.error e
        | Except.ok (s1, [nd]) => Except.ok (s1, nd.root)
        | Except.ok (s1, _) => Except.error (Err.validationError, s1) := by
  have hpos : 0 < 2 ^ k := pow_pos (by omega) k
  have hne : nodes.length ≠ 0 := by omega
  unfold complete_tree
  rw [hlen, floorLog2_pow]
  simp [hne, hlen]

example : complete_tree [Fact.leaf 0] [1] = Except.ok ([Fact.leaf 0], 1) := by decide

example : complete_tree [] [] = Except.error (Err.valueError, []) := by decide

example : complete_tree [Fact.leaf 0, Fact.leaf 1, Fact.leaf 2] [1, 3, 5] =
    Except.error (Err.validationError, [Fact.leaf 0, Fact.leaf 1, Fact.leaf 2]) := by decide

example : complete_tree [] [5] = Except.error (Err.notFoundError, []) := by decide

/-- C1: on a layer of `2 ^ k` stored tokens, `complete_tree` performs exactly
`k` adjacent-pairing rounds (left operand at index `2i`, right at `2i + 1`),
each round writing one internal fact per pair and halving the layer, and
returns the single remaining token — precisely the spec-side `k`-round
pairwise combination.  On four tokens this is
`combine(combine(a, b), combine(c, d))`, and `combine` is position
sensitive. -/
theorem complete_tree_pairing (s : Store) (k : Nat) (nodes : List Token)
    (hlen : nodes.length = 2 ^ k)
    (hmem : ∀ t ∈ nodes, containsFact s t = true) :
    (∃ s' t, complete_tree s nodes = Except.ok (s', t) ∧ completeSpec k nodes = [t]) ∧
    (∀ a b c d : Token,
      completeSpec 2 [a, b, c, d] = [combineSpec (combineSpec a b) (combineSpec c d)]) ∧
    (∀ a b : Token, a ≠ b → combineSpec a b ≠ combineSpec b a) := by
  refine ⟨?_, fun a b c d => rfl, ?_⟩
  · have hprobe : probeAll s (nodes.map (fun t => MerkleTreeNode.mk t 0)) = Except.ok () := by
      apply probeAll_ok
      intro nd hnd
      obtain ⟨t, ht, rfl⟩ := List.mem_map.mp hnd
      exact hmem t ht
    have hlen0 : (nodes.map (fun t => MerkleTreeNode.mk t 0)).length = 2 ^ k := by
      simpa using hlen
    have hh0 : ∀ nd ∈ nodes.map (fun t => MerkleTreeNode.mk t 0), nd.height = 0 := by
      intro nd hnd
      obtain ⟨t, _, rfl⟩ := List.mem_map.mp hnd
      rfl
    obtain ⟨s', layer', hrec, hlen', _, hroots'⟩ :=
      completeRounds_spec k k le_rfl s (nodes.map (fun t => MerkleTreeNode.mk t 0)) 0
        hlen0 hh0
    have h1 : layer'.length = 1 := by simpa using hlen'
    obtain ⟨nd, rfl⟩ := List.length_eq_one.mp h1
    have hmaproot :
        (nodes.map (fun t => MerkleTreeNode.mk t 0)).map MerkleTreeNode.root = nodes := by
      rw [List.map_map]
      exact List.map_id nodes
    refine ⟨s', nd.root, ?_, ?_⟩
    · rw [complete_tree_pow s k nodes hlen, hprobe]
      simp [hrec]
    · have hsp := hroots'
      rw [hmaproot] at hsp
      simpa using hsp.symm
  · intro a b hne heq
    have h2 : (2 : Nat) * Nat.pair a b = 2 * Nat.pair b a := heq
    have h3 : Nat.pair a b = Nat.pair b a := by omega
    exact hne (Nat.pair_eq_pair.mp h3).1

/-- C2 counterexample: the empty layer's length (0) is not a power of two,
yet `complete_tree` fails with the ValueError raised by `math.log(0, 2)`,
not with a ValidationError. -/
theorem complete_tree_empty_layer_valueError :
    complete_tree [] [] = Except.error (Err.valueError, ([] : Store)) ∧
    Err.valueError ≠ Err.validationError ∧
    ¬ ∃ j : Nat, ([] : List Token).length = 2 ^ j := by
  refine ⟨by decide, by decide, ?_⟩
  rintro ⟨j, hj⟩
  have := pow_pos (by omega : (0:Nat) < 2) j
  simp at hj
  omega

/-- C2 amended: on every NON-EMPTY layer, `complete_tree` fails with a
ValidationError whenever the length is not a power of two, and when the
length is `2 ^ j` it proceeds past the length check to the combination
phase, ending either in success or in the probe's NotFoundError (the empty
layer instead fails with ValueError, per the counterexample). -/
theorem complete_tree_length_check (s : Store) (nodes : List Token)
    (hne : nodes ≠ []) :
    (¬ (∃ j : Nat, nodes.length = 2 ^ j) →
      complete_tree s nodes = Except.error (Err.validationError, s)) ∧
    ((∃ j : Nat, nodes.length = 2 ^ j) →
      (∃ s' t, complete_tree s nodes = Except.ok (s', t)) ∨
        complete_tree s nodes = Except.error (Err.notFoundError, s)) := by
  constructor
  · intro hnp
    have h0 : ¬ nodes.length = 0 := by
      simpa using List.length_pos.mpr hne |>.ne'
    have hq : ¬ (2 ^ floorLog2 nodes.length = nodes.length) := by
      intro hq
      exact hnp ⟨floorLog2 nodes.length, hq.symm⟩
    unfold complete_tree
    simp [h0, hq]
  · rintro ⟨j, hj⟩
    rw [complete_tree_pow s j nodes hj]
    rcases probeAll_cases s (nodes.map (fun t => MerkleTreeNode.mk t 0)) with hp | hp
    · left
      have hlen0 : (nodes.map (fun t => MerkleTreeNode.mk t 0)).length = 2 ^ j := by
        simpa using hj
      have hh0 : ∀ nd ∈ nodes.map (fun t => MerkleTreeNode.mk t 0), nd.height = 0 := by
        intro nd hnd
        obtain ⟨t, _, rfl⟩ := List.mem_map.mp hnd
        rfl
      obtain ⟨s', layer', hrec, hlen', _, _⟩ :=
        completeRounds_spec j j le_rfl s (nodes.map (fun t => MerkleTreeNode.mk t 0)) 0
          hlen0 hh0
      have h1 : layer'.length = 1 := by simpa using hlen'
      obtain ⟨nd, rfl⟩ := List.length_eq_one.mp h1
      refine ⟨s', nd.root, ?_⟩
      rw [hp]
      simp [hrec]
    · right
      rw [hp]

/-- C3: when the layer length passes the power-of-two check but some listed
token has no stored fact, the probe pass fails with NotFoundError before any
combination, and the failed call leaves the store unchanged. -/
theorem complete_tree_missing_fact (s : Store) (k : Nat) (nodes : List Token)
    (t : Token) (hlen : nodes.length = 2 ^ k) (ht : t ∈ nodes)
    (hmiss : containsFact s t = false) :
    complete_tree s nodes = Except.error (Err.notFoundError, s) := by
  rw [complete_tree_pow s k nodes hlen]
  have hp := probeAll_err s (nodes.map (fun x => MerkleTreeNode.mk x 0))
    (MerkleTreeNode.mk t 0) (List.mem_map.mpr ⟨t, ht, rfl⟩) hmiss
  rw [hp]

/-- C6: on a single-element layer whose token is stored, `complete_tree`
returns that token unchanged with zero combination fact writes — the
returned store is the input store. -/
theorem complete_tree_singleton (s : Store) (x : Token)
    (hx : containsFact s x = true) :
    complete_tree s [x] = Except.ok (s, x) := by
  have h1 : ([x] : List Token).length = 2 ^ 0 := rfl
  rw [complete_tree_pow s 0 [x] h1]
  have hp : probeAll s ([x].map (fun t => MerkleTreeNode.mk t 0)) = Except.ok () := by
    simp [probeAll, hx]
  rw [hp]
  rfl

/-- C7: inside `complete_tree` every node built from the input layer carries
the placeholder height 0; after round `i` every node in the working layer has
height exactly `i`, so both operands of every `combine_nodes` call agree on
height and the equal-height assert can never fire in this calling pattern. -/
theorem complete_tree_placeholder_heights (s : Store) (k : Nat)
    (nodes : List Token) (hlen : nodes.length = 2 ^ k) :
    (∀ nd ∈ nodes.map (fun t => MerkleTreeNode.mk t 0), nd.height = 0) ∧
    (∀ i, i ≤ k → ∃ s' layer',
      completeRounds s (nodes.map (fun t => MerkleTreeNode.mk t 0)) i =
        Except.ok (s', layer') ∧ ∀ nd ∈ layer', nd.height = i) ∧
    (∀ e s', completeRounds s (nodes.map (fun t => MerkleTreeNode.mk t 0)) k ≠
      Except.error (e, s')) := by
  have hh0 : ∀ nd ∈ nodes.map (fun t => MerkleTreeNode.mk t 0), nd.height = 0 := by
    intro nd hnd
    obtain ⟨t, _, rfl⟩ := List.mem_map.mp hnd
    rfl
  have hlen0 : (nodes.map (fun t => MerkleTreeNode.mk t 0)).length = 2 ^ k := by
    simpa using hlen
  refine ⟨hh0, ?_, ?_⟩
  · intro i hik
    obtain ⟨s', layer', hrec, _, hh', _⟩ :=
      completeRounds_spec i k hik s (nodes.map (fun t => MerkleTreeNode.mk t 0)) 0
        hlen0 hh0
    exact ⟨s', layer', hrec, by simpa using hh'⟩
  · intro e s' hcontra
    obtain ⟨s1, layer1, hrec, _, _, _⟩ :=
      completeRounds_spec k k le_rfl s (nodes.map (fun t => MerkleTreeNode.mk t 0)) 0
        hlen0 hh0
    rw [hrec] at hcontra
    exact Except.noConfusion hcontra

/-- C4: `combine_nodes` fails with a ValidationError exactly when the two
nodes' reported heights differ, and combines them into a parent fact exactly
when the heights agree. -/
theorem combine_nodes_height_check (s : Store) (left right : MerkleTreeNode) :
    (left.height ≠ right.height →
      combine_nodes s left right = Except.error (Err.validationError, s)) ∧
    (left.height = right.height →
      ∃ s' nd, combine_nodes s left right = Except.ok (s', nd)) := by
  constructor
  · intro hne
    simp [combine_nodes, hne]
  · intro heq
    refine ⟨writeFact s (Fact.node left.root right.root),
      MerkleTreeNode.mk (factHash (Fact.node left.root right.root)) (left.height + 1), ?_⟩
    simp [combine_nodes, heq]

/-- C9: on equal heights `h`, `combine_nodes` writes the internal fact
recording `(left.root, right.root)` in that operand order and returns the
node whose root is that fact's content token and whose height is `h + 1`. -/
theorem combine_nodes_parent (s : Store) (left right : MerkleTreeNode)
    (heq : left.height = right.height) :
    combine_nodes s left right =
      Except.ok (writeFact s (Fact.node left.root right.root),
        MerkleTreeNode.mk (combineSpec left.root right.root) (left.height + 1)) := by
  simp [combine_nodes, heq, combineSpec]

/-- Unfolding of `load_info` when the completion step fails: the exception
propagates with the committee storage untouched. -/
theorem load_info_err_eq (s : Store) (kv : CommitteeKV) (di : DumpInfo)
    (flag : Bool) (e : Err) (s0 : Store)
    (hct : complete_tree s di.order_subtree_roots = Except.error (e, s0)) :
    load_info s kv di flag = Except.error (e, s0, kv) := by
  unfold load_info
  rw [hct]

/-- Unfolding of `load_info` when the completion step succeeds: the root
cross-check decides between persisting and the assertion failure. -/
theorem load_info_ok_eq (s : Store) (kv : CommitteeKV) (di : DumpInfo)
    (flag : Bool) (s0 : Store) (root : Token)
    (hct : complete_tree s di.order_subtree_roots = Except.ok (s0, root)) :
    load_info s kv di flag =
      (if root = di.batch_info.order_root then
        if flag then
          Except.ok (s0,
            kvSetNextBatchId (kvSetBatchInfo kv di.batch_id di.batch_info)
              (di.batch_id + 1))
        else Except.ok (s0, kvSetBatchInfo kv di.batch_id di.batch_info)
      else Except.error (Err.validationError, s0, kv)) := by
  unfold load_info
  rw [hct]

/-- C5: when the completion over the dumped subtree roots succeeds but its
root differs from the claimed `batch_info.merkle_roots["order"]`, `load_info`
fails with the equality assert; the committee storage it carries at failure
is the unchanged input storage — no batch-info record is written and the
next-batch-id counter is untouched. -/
theorem load_info_root_mismatch (s : Store) (kv : CommitteeKV) (di : DumpInfo)
    (flag : Bool) (s1 : Store) (root : Token)
    (hct : complete_tree s di.order_subtree_roots = Except.ok (s1, root))
    (hne : root ≠ di.batch_info.order_root) :
    load_info s kv di flag = Except.error (Err.validationError, s1, kv) := by
  simp [load_info, hct, hne]

/-- C8: the next-batch-id counter ends up `batch_id + 1` exactly when the
`--set_next_batch_id` flag is given and the load succeeded; without the flag
it keeps its previous value, every failure leaves the committee storage
untouched, and any state with the advanced counter also holds the persisted
batch-info record. -/
theorem load_info_next_batch_id (s : Store) (kv : CommitteeKV) (di : DumpInfo)
    (flag : Bool) :
    (∀ s1 kv', load_info s kv di flag = Except.ok (s1, kv') →
      kv'.next_batch_id = (if flag then some (di.batch_id + 1) else kv.next_batch_id) ∧
      kvGetBatchInfo kv' di.batch_id = some di.batch_info) ∧
    (∀ e s1 kv', load_info s kv di flag = Except.error (e, s1, kv') → kv' = kv) := by
  constructor
  · intro s1 kv' hok
    cases hct : complete_tree s di.order_subtree_roots with
    | error p =>
      rw [load_info_err_eq s kv di flag p.1 p.2 (by rw [hct])] at hok
      exact Except.noConfusion hok
    | ok p =>
      rw [load_info_ok_eq s kv di flag p.1 p.2 (by rw [hct])] at hok
      by_cases hr : p.2 = di.batch_info.order_root
      · rw [if_pos hr] at hok
        cases flag with
        | true =>
          rw [if_pos rfl] at hok
          have h2 := Except.ok.inj hok
          have hkv : kvSetNextBatchId (kvSetBatchInfo kv di.batch_id di.batch_info)
              (di.batch_id + 1) = kv' := congrArg Prod.snd h2
          subst hkv
          refine ⟨rfl, ?_⟩
          simp [kvGetBatchInfo, kvSetNextBatchId, kvSetBatchInfo]
        | false =>
          rw [if_neg (by simp)] at hok
          have h2 := Except.ok.inj hok
          have hkv : kvSetBatchInfo kv di.batch_id di.batch_info = kv' :=
            congrArg Prod.snd h2
          subst hkv
          refine ⟨rfl, ?_⟩
          simp [kvGetBatchInfo, kvSetBatchInfo]
      · rw [if_neg hr] at hok
        exact Except.noConfusion hok
  · intro e s1 kv' herr
    cases hct : complete_tree s di.order_subtree_roots with
    | error p =>
      rw [load_info_err_eq s kv di flag p.1 p.2 (by rw [hct])] at herr
      have h2 := Except.error.inj herr
      exact (congrArg (fun q => q.2.2) h2).symm
    | ok p =>
      rw [load_info_ok_eq s kv di flag p.1 p.2 (by rw [hct])] at herr
      by_cases hr : p.2 = di.batch_info.order_root
      · rw [if_pos hr] at herr
        cases flag with
        | true =>
          rw [if_pos rfl] at herr
          exact Except.noConfusion herr
        | false =>
          rw [if_neg (by simp)] at herr
          exact Except.noConfusion herr
      · rw [if_neg hr] at herr
        have h2 := Except.error.inj herr
        exact (congrArg (fun q => q.2.2) h2).symm

/-- `find?` over an appended list searches the first part first. -/
theorem find?_append {α : Type} (p : α → Bool) :
    ∀ (l1 l2 : List α), (l1 ++ l2).find? p =
      (match l1.find? p with
       | some a => some a
       | none => l2.find? p)
  | [], l2 => by simp
  | a :: l1, l2 => by
    cases hp : p a with
    | true => simp [List.find?, hp]
    | false =>
      simp only [List.cons_append, List.find?, hp, List.append_eq,
        find?_append p l1 l2]

/-- Folding Python-dict assignments row by row: the resulting map agrees at
every index with the LAST row carrying that index (searched via the reversed
row list), falling back to the initial map. -/
theorem dict_foldl_last {α β : Type} (key : α → Int) (val : α → β) :
    ∀ (rows : List α) (d : Int → Option β) (i : Int),
      (rows.foldl (fun m row => fun j => if j = key row then some (val row) else m j) d) i =
      (match rows.reverse.find? (fun row => key row == i) with
       | some row => some (val row)
       | none => d i)
  | [], d, i => by simp
  | r :: rest, d, i => by
    rw [List.foldl_cons, dict_foldl_last key val rest, List.reverse_cons,
      find?_append]
    cases h2 : rest.reverse.find? (fun row => key row == i) with
    | some row => simp
    | none =>
      simp only [List.find?]
      cases hkey : key r == i with
      | true =>
        have : i = key r := (beq_iff_eq.mp hkey).symm
        simp [this]
      | false =>
        have : ¬ i = key r := fun hh => by simp [hh] at hkey
        simp [this]

/-- C10: duplicate indices in the vaults (resp. orders) CSV keep only the
last row for each index: the modification map built by `update_vaults`
(resp. `update_orders`) in the model equals, at every index, the value of
the last row listing that index. -/
theorem update_maps_last_row_wins :
    (∀ (rows : List (Int × Int × Int × Int)) (i : Int),
      update_vaults_map rows i =
        (rows.reverse.find? (fun row => row.1 == i)).map vaultStateOfRow) ∧
    (∀ (rows : List (Int × Int)) (i : Int),
      update_orders_map rows i =
        (rows.reverse.find? (fun row => row.1 == i)).map orderStateOfRow) := by
  constructor
  · intro rows i
    rw [update_vaults_map, dict_foldl_last Prod.fst vaultStateOfRow rows]
    cases rows.reverse.find? (fun row => row.1 == i) with
    | some row => rfl
    | none => rfl
  · intro rows i
    rw [update_orders_map, dict_foldl_last Prod.fst orderStateOfRow rows]
    cases rows.reverse.find? (fun row => row.1 == i) with
    | some row => rfl
    | none => rfl

/-- Witness for C1: four stored leaf tokens, two rounds of combination. -/
theorem complete_tree_pairing_witness :
    (∃ s' t,
      complete_tree [Fact.leaf 0, Fact.leaf 1, Fact.leaf 2, Fact.leaf 3] [1, 3, 5, 7] =
        Except.ok (s', t) ∧ completeSpec 2 [1, 3, 5, 7] = [t]) ∧
    (∀ a b c d : Token,
      completeSpec 2 [a, b, c, d] = [combineSpec (combineSpec a b) (combineSpec c d)]) ∧
    (∀ a b : Token, a ≠ b → combineSpec a b ≠ combineSpec b a) :=
  complete_tree_pairing [Fact.leaf 0, Fact.leaf 1, Fact.leaf 2, Fact.leaf 3] 2
    [1, 3, 5, 7] (by decide) (by decide)

/-- Three is not a power of two. -/
theorem three_not_pow2 : ¬ ∃ j : Nat, (3 : Nat) = 2 ^ j := by
  rintro ⟨j, hj⟩
  match j with
  | 0 => simp at hj
  | 1 => simp at hj
  | j + 2 =>
    have h1 : (2 : Nat) ^ 2 ≤ 2 ^ (j + 2) := Nat.pow_le_pow_right (by omega) (by omega)
    have h2 : (2 : Nat) ^ 2 = 4 := by norm_num
    omega

/-- Witness for the amended C2: a three-token layer fails the power-of-two
length check with a ValidationError. -/
theorem complete_tree_length_check_witness :
    complete_tree [] [1, 3, 5] = Except.error (Err.validationError, []) :=
  (complete_tree_length_check [] [1, 3, 5] (by decide)).1 (by simpa using three_not_pow2)

/-- Witness for C3: a singleton layer whose token has no stored fact. -/
theorem complete_tree_missing_fact_witness :
    complete_tree [] [0] = Except.error (Err.notFoundError, []) :=
  complete_tree_missing_fact [] 0 [0] 0 (by decide) (by decide) (by decide)

/-- Witness for C4: mismatched heights fail, equal heights combine. -/
theorem combine_nodes_height_check_witness :
    combine_nodes [] (MerkleTreeNode.mk 1 0) (MerkleTreeNode.mk 2 1) =
      Except.error (Err.validationError, []) ∧
    (∃ s' nd, combine_nodes [] (MerkleTreeNode.mk 1 0) (MerkleTreeNode.mk 2 0) =
      Except.ok (s', nd)) :=
  ⟨(combine_nodes_height_check [] (MerkleTreeNode.mk 1 0) (MerkleTreeNode.mk 2 1)).1
      (by decide),
    (combine_nodes_height_check [] (MerkleTreeNode.mk 1 0) (MerkleTreeNode.mk 2 0)).2 rfl⟩

/-- Witness for C5: a claimed order root that differs from the computed one
fails the assert and leaves the committee storage unchanged. -/
theorem load_info_root_mismatch_witness :
    load_info [Fact.leaf 0] (CommitteeKV.mk [] none)
        (DumpInfo.mk 7 [1] (BatchInfo.mk 2 99)) false =
      Except.error (Err.validationError, [Fact.leaf 0], CommitteeKV.mk [] none) :=
  load_info_root_mismatch [Fact.leaf 0] (CommitteeKV.mk [] none)
    (DumpInfo.mk 7 [1] (BatchInfo.mk 2 99)) false [Fact.leaf 0] 1 (by decide) (by decide)

/-- Witness for C6: a stored singleton layer returns its token with the
store unchanged. -/
theorem complete_tree_singleton_witness :
    complete_tree [Fact.leaf 0] [1] = Except.ok ([Fact.leaf 0], 1) :=
  complete_tree_singleton [Fact.leaf 0] 1 (by decide)

/-- Witness for C7: a two-token layer, one round, heights 0 then 1. -/
theorem complete_tree_placeholder_heights_witness :
    (∀ nd ∈ ([1, 3] : List Token).map (fun t => MerkleTreeNode.mk t 0), nd.height = 0) ∧
    (∀ i, i ≤ 1 → ∃ s' layer',
      completeRounds [] (([1, 3] : List Token).map (fun t => MerkleTreeNode.mk t 0)) i =
        Except.ok (s', layer') ∧ ∀ nd ∈ layer', nd.height = i) ∧
    (∀ e s',
      completeRounds [] (([1, 3] : List Token).map (fun t => MerkleTreeNode.mk t 0)) 1 ≠
        Except.error (e, s')) :=
  complete_tree_placeholder_heights [] 1 [1, 3] (by decide)

/-- Witness for C8: with the flag set and a successful load, the counter is
`batch_id + 1` and the batch-info record is persisted. -/
theorem load_info_next_batch_id_witness :
    (CommitteeKV.mk [(7, BatchInfo.mk 1 99)] (some 8)).next_batch_id =
      (if true then some (7 + 1)
        else (CommitteeKV.mk ([] : List (Nat × BatchInfo)) none).next_batch_id) ∧
    kvGetBatchInfo (CommitteeKV.mk [(7, BatchInfo.mk 1 99)] (some 8)) 7 =
      some (BatchInfo.mk 1 99) :=
  (load_info_next_batch_id [Fact.leaf 0] (CommitteeKV.mk [] none)
      (DumpInfo.mk 7 [1] (BatchInfo.mk 1 99)) true).1
    [Fact.leaf 0] (CommitteeKV.mk [(7, BatchInfo.mk 1 99)] (some 8)) (by decide)

/-- Witness for C9: combining two stored-root nodes of height 0 writes the
ordered internal fact and returns its token at height 1. -/
theorem combine_nodes_parent_witness :
    combine_nodes [] (MerkleTreeNode.mk 1 0) (MerkleTreeNode.mk 2 0) =
      Except.ok (writeFact [] (Fact.node 1 2),
        MerkleTreeNode.mk (combineSpec 1 2) (0 + 1)) :=
  combine_nodes_parent [] (MerkleTreeNode.mk 1 0) (MerkleTreeNode.mk 2 0) rfl

end StarkexDAC
